import Mathlib

/-!
# A shallow embedding of the OpenMOC core (surfaces, cells, subdivision, solver)

Definitions are translated from `src/Surface.cpp`, `src/Cell.cpp`,
`src/Cell.h` and `src/VectorizedSolver.cpp`.  Real-valued (`double`)
quantities are modelled over `ℝ`; integer counters over `ℤ`/`ℕ`.
C arrays are modelled as functions from indices; the `cblas_dasum`
routine sums absolute values of the first `n` entries.
-/

open Real

namespace OpenMOC

open Classical

/-- Numeric constant from the spec (§6): `ON_SURFACE_THRESH = 1e-12`. -/
noncomputable def ON_SURFACE_THRESH : ℝ := 1e-12

/-! ## Surface and Cell id assignment (`Surface.cpp` 16-44, `Cell.cpp` 18-55)

Both files keep a file-static counter `auto_id` starting at 10000; `surf_id()`
(resp. `cell_id()`) returns the current value and increments it.  The
constructors below are modelled as functions from the current counter value
and the user-supplied id to the new counter value and either the stored id or
a fatal error. -/

/-- `Surface::Surface(id)`: `id == 0` draws an auto id; otherwise the code
evaluates `id >= surf_id()` — note that this *calls* `surf_id()`, so the
counter is incremented on every construction with a nonzero id, and the
comparison is against the current (moving) counter value, not against
10000. -/
def surfCtorId (auto id : ℤ) : ℤ × Except Unit ℤ :=
  if id = 0 then (auto + 1, .ok auto)
  else if auto ≤ id then (auto + 1, .error ())
  else (auto + 1, .ok id)

/-- `Cell::Cell(universe, id)`: `id == 0` draws an auto id; an id `>= 10000`
is a fatal error; otherwise the user id is stored. -/
def cellCtorId (auto id : ℤ) : ℤ × Except Unit ℤ :=
  if id = 0 then (auto + 1, .ok auto)
  else if 10000 ≤ id then (auto, .error ())
  else (auto, .ok id)

/-! ## SIMD group padding (`VectorizedSolver.cpp` 108-128) -/

/-- `VectorizedSolver::setGeometry`: `_num_vector_lengths = (_num_groups + 1) / _vector_length`. -/
def numVectorLengths (g v : ℕ) : ℕ := (g + 1) / v

/-- `VectorizedSolver::setGeometry`: `_num_groups = _num_vector_lengths * _vector_length`. -/
def paddedNumGroups (g v : ℕ) : ℕ := numVectorLengths g v * v

/-! ## Surfaces as data (`Surface.cpp`)

A `Plane` stores the coefficients `A, B, C` of `A·x + B·y + C = 0`
(`XPlane x` is `Plane 1 0 (-x)`, `YPlane y` is `Plane 0 1 (-y)`,
`ZPlane z` is `Plane 0 0 (-z)`); a `Circle` stores its center and radius
(its quadratic coefficients are `A = B = 1`, `C = -2x₀`, `D = -2y₀`,
`E = x₀² + y₀² - r²`).  Every surface carries its user-visible id. -/

inductive Surf : Type
  | plane (A B C : ℝ) (id : ℤ)
  | circle (x0 y0 radius : ℝ) (id : ℤ)

/-- `Surface::getId`. -/
def Surf.getId : Surf → ℤ
  | .plane _ _ _ id => id
  | .circle _ _ _ id => id

/-! ## The cell's surface map (`Cell.h` 83, `Cell.cpp` 135-145)

`Cell::_surfaces` is a `std::map<int, surface_halfspace>` keyed by the
surface's user id and iterated in increasing key order.  We model it as an
association list of `(key, halfspace, surface)` entries kept sorted by key;
`mapInsert` inserts in key order, replacing an entry whose key is already
present, exactly as `_surfaces[surface->getId()] = ...` does. -/

def mapInsert (k hs : ℤ) (s : Surf) : List (ℤ × ℤ × Surf) → List (ℤ × ℤ × Surf)
  | [] => [(k, hs, s)]
  | e :: t =>
    if k < e.1 then (k, hs, s) :: e :: t
    else if k = e.1 then (k, hs, s) :: t
    else e :: mapInsert k hs s t

def mapLookup (k : ℤ) : List (ℤ × ℤ × Surf) → Option (ℤ × Surf)
  | [] => none
  | e :: t => if e.1 = k then some e.2 else mapLookup k t

/-- A cell: universe id, material id, ring/sector counts and the bounding
surface map (`CellBasic`, `Cell.h` 120-160). -/
structure CellB : Type where
  universeId : ℤ
  material : ℤ
  num_rings : ℕ
  num_sectors : ℕ
  surfaces : List (ℤ × ℤ × Surf)

/-- `Cell::getNumSurfaces` returns `_surfaces.size()`. -/
def CellB.getNumSurfaces (c : CellB) : ℕ := c.surfaces.length

/-- The successful body of `Cell::addSurface`: store the binding under the
surface's id. -/
def addSurfValid (c : CellB) (hs : ℤ) (s : Surf) : CellB :=
  { c with surfaces := mapInsert s.getId hs s c.surfaces }

/-- `Cell::addSurface`: a halfspace other than `-1`/`+1` is a fatal error;
otherwise `_surfaces[surface->getId()] = {surface, halfspace}`. -/
def CellB.addSurface (c : CellB) (hs : ℤ) (s : Surf) : Except Unit CellB :=
  if hs ≠ -1 ∧ hs ≠ 1 then .error () else .ok (addSurfValid c hs s)

/-- `CellBasic::clone` (`Cell.cpp` 311-324): construct a fresh cell from the
universe, material and ring/sector counts, then `addSurface` each entry of
`_surfaces` in map (increasing-key) order. -/
def CellB.clone (c : CellB) : CellB :=
  { universeId := c.universeId
    material := c.material
    num_rings := c.num_rings
    num_sectors := c.num_sectors
    surfaces := c.surfaces.foldl (fun m e => mapInsert e.1 e.2.1 e.2.2 m) [] }

/-! ## Sectorize (`Cell.cpp` 330-390)

`sectorize` creates `_num_sectors` planes through the origin,
`Plane(cos(i·Δ), sin(i·Δ), 0)` with `Δ = 2π/_num_sectors`, then for each `i`
clones the cell, resets the clone's ring/sector counts to 0, and adds
`(+1, plane_i)` and — unless `_num_sectors == 2` —
`(-1, plane_{i+1 < n ? i+1 : 0})`.  The planes receive consecutive
auto-generated ids; `b` below is the value of the surface auto-id counter
when `sectorize` runs, so plane `i` has id `b + i`. -/

/-- The `i`-th sector plane created by `CellBasic::sectorize` for a cell with
`n` sectors, given the current surface auto-id counter `b`. -/
noncomputable def sectorPlane (n : ℕ) (b : ℤ) (i : ℕ) : Surf :=
  Surf.plane (Real.cos (i * (2 * π / n))) (Real.sin (i * (2 * π / n))) 0 (b + i)

/-- `CellBasic::sectorize`, returning the list `_sectors` of sector clones
(empty when `_num_sectors == 0`). -/
noncomputable def CellB.sectorize (c : CellB) (b : ℤ) : List CellB :=
  if c.num_sectors = 0 then []
  else
    (List.range c.num_sectors).map (fun i =>
      let sector := { c.clone with num_sectors := 0, num_rings := 0 }
      let sector1 := addSurfValid sector 1 (sectorPlane c.num_sectors b i)
      if c.num_sectors ≠ 2 then
        addSurfValid sector1 (-1)
          (sectorPlane c.num_sectors b (if i + 1 < c.num_sectors then i + 1 else 0))
      else sector1)

/-! ## Ringify (`Cell.cpp` 396-556) -/

/-- The fatal errors `ringify` can raise through `log_printf(ERROR, ...)`. -/
inductive RingifyErr : Type
  | noCircles
  | centersDifferX
  | centersDifferY
  | onlyInnerCircle
  | disjointCircles
deriving DecidableEq

/-- The non-fatal diagnostics `ringify` prints through `log_printf(NORMAL, ...)`. -/
inductive RingWarn : Type
  | moreThan2Circles
deriving DecidableEq

/-- The scan loop of `ringify` (`Cell.cpp` 416-444): iterate `_surfaces` in
map order; every CIRCLE surface increments `num_circles`, a `-1` circle is
recorded as `circle1` (outer), a `+1` circle as `circle2` (inner); later
entries overwrite earlier ones. -/
def scanCircles (l : List (ℤ × ℤ × Surf)) : ℕ × Option Surf × Option Surf :=
  l.foldl
    (fun acc e =>
      match e.2.2 with
      | Surf.circle x y r id =>
        if e.2.1 = -1 then (acc.1 + 1, some (Surf.circle x y r id), acc.2.2)
        else if e.2.1 = 1 then (acc.1 + 1, acc.2.1, some (Surf.circle x y r id))
        else (acc.1 + 1, acc.2.1, acc.2.2)
      | _ => acc)
    (0, none, none)

/-- `Circle::getRadius` on the scan result; the C locals `radius1`/`radius2`
are initialized to 0 and only overwritten when the matching circle exists. -/
def circRadius : Option Surf → ℝ
  | some (.circle _ _ r _) => r
  | _ => 0

/-- `Circle::getX0` on the scan result (C local default 0). -/
def circX0 : Option Surf → ℝ
  | some (.circle x _ _ _) => x
  | _ => 0

/-- `Circle::getY0` on the scan result (C local default 0). -/
def circY0 : Option Surf → ℝ
  | some (.circle _ y _ _) => y
  | _ => 0

/-- `Cell.cpp` 481: `area = M_PI * fabs(radius1*radius1 - radius2*radius2) / _num_rings`. -/
noncomputable def ringEqualArea (R1 R2 : ℝ) (n : ℕ) : ℝ :=
  π * |R1 * R1 - R2 * R2| / n

/-- The radii of the ring circles generated by `ringify` (`Cell.cpp` 484-493):
`r_0 = radius1` and `r_{k+1} = sqrt(r_k² - area/π)`. -/
noncomputable def ringRadius (R1 R2 : ℝ) (n : ℕ) : ℕ → ℝ
  | 0 => R1
  | k + 1 => Real.sqrt (ringRadius R1 R2 n k * ringRadius R1 R2 n k - ringEqualArea R1 R2 n / π)

/-- One ring clone (`Cell.cpp` 499-551): clone the base cell, reset its
ring/sector counts, add `(-1, outer_circle)` and, when a next circle exists,
`(+1, inner_circle)`. -/
def mkRing (base : CellB) (outer : Surf) (inner : Option Surf) : CellB :=
  let ring := { base.clone with num_sectors := 0, num_rings := 0 }
  let ring1 := addSurfValid ring (-1) outer
  match inner with
  | some s => addSurfValid ring1 1 s
  | none => ring1

/-- The ring-cell construction loop of `ringify` (`Cell.cpp` 484-551): for
each generated circle (outermost first, radius `ringRadius R1 R2 n j`, id
`b + j`), one clone per pre-sectorized cell — or one clone of the cell
itself when there are no sectors — bounded by `(-1, circle_j)` and, except
for the innermost ring, `(+1, circle_{j+1})`. -/
noncomputable def ringCellList (c : CellB) (secs : List CellB) (b : ℤ) (x1 y1 R1 R2 : ℝ) :
    List CellB :=
  ((List.range c.num_rings).map (fun j =>
    (if secs.isEmpty then [c] else secs).map (fun t =>
      mkRing t (Surf.circle x1 y1 (ringRadius R1 R2 c.num_rings j) (b + j))
        (if j + 1 < c.num_rings then
          some (Surf.circle x1 y1 (ringRadius R1 R2 c.num_rings (j + 1)) (b + (j + 1 : ℕ)))
        else none)))).flatten

/-- `CellBasic::ringify`.  Returns `.error` when a `log_printf(ERROR, ...)`
check fires (fatal), else the non-fatal warnings plus the list `_rings`
built by `ringCellList`.  `secs` is the `_sectors` vector; `b` is the
surface auto-id counter when the ring circles are constructed, so ring
circle `j` has id `b + j`.  If `_num_rings == 0` the method returns
without touching `_subcells`. -/
noncomputable def CellB.ringify (c : CellB) (secs : List CellB) (b : ℤ) :
    Except RingifyErr (List RingWarn × List CellB) :=
  if c.num_rings = 0 then .ok ([], [])
  else
    let scan := scanCircles c.surfaces
    let num_circles := scan.1
    let circle1 := scan.2.1
    let circle2 := scan.2.2
    if num_circles = 0 then .error .noCircles
    else
      let warns := if 2 < num_circles then [RingWarn.moreThan2Circles] else []
      if circX0 circle1 ≠ circX0 circle2 ∧ num_circles = 2 then .error .centersDifferX
      else if circY0 circle1 ≠ circY0 circle2 ∧ num_circles = 2 then .error .centersDifferY
      else if circle1 = none ∧ circle2 ≠ none then .error .onlyInnerCircle
      else if circRadius circle1 ≤ circRadius circle2 then .error .disjointCircles
      else
        .ok (warns,
          ringCellList c secs b (circX0 circle1) (circY0 circle1)
            (circRadius circle1) (circRadius circle2))

/-- `CellBasic::subdivideCell` (`Cell.cpp` 565-569): `sectorize()` then
`ringify()` then return `_subcells`.  When `_num_rings == 0`, `ringify`
leaves `_subcells` as `sectorize` set it (the sector list, or empty);
otherwise `_subcells` is the ring list.  `b` is the surface auto-id counter
on entry; `sectorize` consumes `_num_sectors` ids for its planes. -/
noncomputable def CellB.subdivideCell (c : CellB) (b : ℤ) :
    Except RingifyErr (List RingWarn × List CellB) :=
  let secs := c.sectorize b
  if c.num_rings = 0 then .ok ([], secs)
  else c.ringify secs (b + c.num_sectors)

/-! ## The vectorized solver state (`VectorizedSolver.cpp`)

After `setGeometry`, `_num_groups` is a multiple of the vector length, and
the vectorized loops `for v < _num_vector_lengths, for e ∈ [v·VL, (v+1)·VL)`
cover exactly the group indices `e < _num_groups`; the sums below are
written over `e < num_groups` accordingly.  Per-FSR material data is read
through `_FSR_materials[r]`, modelled as functions of `(r, e)`.
`cblas_dasum`/`cblas_sasum` compute the sum of absolute values.
`source_residuals` is allocated with `new FP_PRECISION[...]` and never
zero-initialized; `residual_buffer` models the memory contents it starts
with. -/

structure SolverState : Type where
  num_FSRs : ℕ
  num_groups : ℕ
  num_polar : ℕ
  tot_num_tracks : ℕ
  FSR_volumes : ℕ → ℝ
  sigma_a : ℕ → ℕ → ℝ
  nu_sigma_f : ℕ → ℕ → ℝ
  chi : ℕ → ℕ → ℝ
  sigma_t : ℕ → ℕ → ℝ
  sigma_s : ℕ → ℕ → ℕ → ℝ
  scalar_flux : ℕ → ℕ → ℝ
  old_source : ℕ → ℕ → ℝ
  k_eff : ℝ
  boundary_leakage : ℕ → ℝ
  residual_buffer : ℕ → ℕ → ℝ

/-- Numeric constant (`ONE_OVER_FOUR_PI` in the source, spec §6). -/
noncomputable def ONE_OVER_FOUR_PI : ℝ := 1 / (4 * π)

/-! ### `computeKeff` (`VectorizedSolver.cpp` 422-488) -/

/-- `absorption_rates[r*G+e] = sigma_a[e] * flux(r,e) * volume` (lines 451,453). -/
noncomputable def absorptionRate (s : SolverState) (r e : ℕ) : ℝ :=
  s.sigma_a r e * s.scalar_flux r e * s.FSR_volumes r

/-- `fission_rates[r*G+e] = nu_sigma_f[e] * flux(r,e) * volume` (lines 452,454). -/
noncomputable def fissionRate (s : SolverState) (r e : ℕ) : ℝ :=
  s.nu_sigma_f r e * s.scalar_flux r e * s.FSR_volumes r

/-- `tot_abs = cblas_dasum(num_FSRs*num_groups, absorption_rates, 1)` (line 466):
the sum of absolute values over the flattened `(r, e)` array. -/
noncomputable def totAbs (s : SolverState) : ℝ :=
  ∑ r ∈ Finset.range s.num_FSRs, ∑ e ∈ Finset.range s.num_groups, |absorptionRate s r e|

/-- `tot_fission = cblas_dasum(num_FSRs*num_groups, fission_rates, 1)` (line 467). -/
noncomputable def totFission (s : SolverState) : ℝ :=
  ∑ r ∈ Finset.range s.num_FSRs, ∑ e ∈ Finset.range s.num_groups, |fissionRate s r e|

/-- `_polar_times_groups = _num_groups * _num_polar` (line 119). -/
def polarTimesGroups (s : SolverState) : ℕ := s.num_groups * s.num_polar

/-- `_leakage = cblas_sasum(2*tot_num_tracks*polar_times_groups, _boundary_leakage, 1) * 0.5`
(lines 471-477). -/
noncomputable def leakageStored (s : SolverState) : ℝ :=
  (∑ i ∈ Finset.range (2 * s.tot_num_tracks * polarTimesGroups s), |s.boundary_leakage i|) * 0.5

/-- `VectorizedSolver::computeKeff`: `_k_eff = tot_fission / (tot_abs + _leakage)` (line 479). -/
noncomputable def computeKeff (s : SolverState) : ℝ :=
  totFission s / (totAbs s + leakageStored s)

/-- Stated from the claim's words, for comparison with `computeKeff`:
`k_eff = (Σ νΣ_f·φ·V) / ((Σ Σ_a·φ·V) + leakage/2)` where `leakage` is one
half of the sum of every entry of the boundary-leakage accumulator. -/
noncomputable def claimKeff (s : SolverState) : ℝ :=
  (∑ r ∈ Finset.range s.num_FSRs, ∑ e ∈ Finset.range s.num_groups,
      s.nu_sigma_f r e * s.scalar_flux r e * s.FSR_volumes r) /
    ((∑ r ∈ Finset.range s.num_FSRs, ∑ e ∈ Finset.range s.num_groups,
        s.sigma_a r e * s.scalar_flux r e * s.FSR_volumes r) +
      ((∑ i ∈ Finset.range (2 * s.tot_num_tracks * polarTimesGroups s),
          s.boundary_leakage i) / 2) / 2)

/-! ### `computeFSRSources` (`VectorizedSolver.cpp` 287-376) -/

/-- `fission_source = cblas_dasum(num_groups, fission_sources, 1)` where
`fission_sources[e] = flux(r,e) * nu_sigma_f[e]` (lines 318-326). -/
noncomputable def fissionSourceR (s : SolverState) (r : ℕ) : ℝ :=
  ∑ e ∈ Finset.range s.num_groups, |s.scalar_flux r e * s.nu_sigma_f r e|

/-- `scatter_source = cblas_dasum(num_groups, scatter_sources, 1)` where
`scatter_sources[g] = sigma_s[G*num_groups+g] * flux(r,g)` (lines 332-343). -/
noncomputable def scatterSourceRG (s : SolverState) (r G : ℕ) : ℝ :=
  ∑ g ∈ Finset.range s.num_groups, |s.sigma_s r G g * s.scalar_flux r g|

/-- `_source(r,G) = ((1/k_eff) * fission_source * chi[G] + scatter_source) * ONE_OVER_FOUR_PI`
(lines 346-347). -/
noncomputable def sourceRG (s : SolverState) (r G : ℕ) : ℝ :=
  ((1 / s.k_eff) * fissionSourceR s r * s.chi r G + scatterSourceRG s r G) * ONE_OVER_FOUR_PI

/-- `_ratios(r,G) = _source(r,G) / sigma_t[G]` (line 349). -/
noncomputable def ratioRG (s : SolverState) (r G : ℕ) : ℝ :=
  sourceRG s r G / s.sigma_t r G

/-- The residual array entry (lines 352-354): set to `((Q - Q_old)/Q)²` when
`fabs(Q) > 1E-10`; otherwise left at whatever the freshly `new[]`-allocated
buffer happened to contain. -/
noncomputable def residualEntry (s : SolverState) (r G : ℕ) : ℝ :=
  if 1e-10 < |sourceRG s r G| then ((sourceRG s r G - s.old_source r G) / sourceRG s r G) ^ 2
  else s.residual_buffer r G

/-- The return value of `computeFSRSources` (lines 364-375):
`sqrt(cblas_dasum(num_FSRs*num_groups, source_residuals, 1) / num_FSRs)`. -/
noncomputable def sourceResidual (s : SolverState) : ℝ :=
  Real.sqrt
    ((∑ r ∈ Finset.range s.num_FSRs, ∑ G ∈ Finset.range s.num_groups, |residualEntry s r G|) /
      s.num_FSRs)

/-- Stated from the claim's words, for comparison with `sourceResidual`:
`res = sqrt((1/N_FSR) · Σ_{r,G : |Q|>1e-10} ((Q-Q_old)/Q)²)`, entries with
`|Q| ≤ 1e-10` contributing zero. -/
noncomputable def claimResidual (s : SolverState) : ℝ :=
  Real.sqrt
    ((∑ r ∈ Finset.range s.num_FSRs, ∑ G ∈ Finset.range s.num_groups,
        if 1e-10 < |sourceRG s r G| then
          ((sourceRG s r G - s.old_source r G) / sourceRG s r G) ^ 2
        else 0) /
      s.num_FSRs)

/-! ## Ray/surface intersection (`Surface.cpp` 191-242 and 592-707)

`Point` is a pair `(x, y)`.  The routines report between 0 and 2 points;
the returned list contains exactly the candidates that passed the
filter `(angle < π ∧ ycurr > y0) ∨ (angle > π ∧ ycurr < y0)`, in the order
the code produces them.  In `Circle::intersection`, the non-vertical
tangent branch (`discr == 0`, lines 671-679) computes
`ycurr = y0 + m * (points[0].getX() - x0)` *before* writing `points[0]`,
so it reads whatever x-coordinate the caller's output buffer already held;
that prior content is the explicit argument `buf0x` below. -/

/-- The forward-travel filter applied to every candidate intersection
(`angle < M_PI && ycurr > y0` / `angle > M_PI && ycurr < y0`). -/
def forwardRetained (θ y0 y : ℝ) : Prop :=
  (θ < π ∧ y0 < y) ∨ (π < θ ∧ y < y0)

/-- `Plane::evaluate`.  Modelled from the spec: `Surface.h` is not in `src/`;
spec §3 gives the plane implicit form `A·x + B·y + C`. -/
noncomputable def planeEvaluate (A B C : ℝ) (p : ℝ × ℝ) : ℝ :=
  A * p.1 + B * p.2 + C

/-- `Circle::_C = -2x₀` (constructor, `Surface.cpp` 557). -/
noncomputable def circCoefC (x0 : ℝ) : ℝ := -2 * x0

/-- `Circle::_D = -2y₀` (constructor, `Surface.cpp` 558). -/
noncomputable def circCoefD (y0 : ℝ) : ℝ := -2 * y0

/-- `Circle::_E = x₀² + y₀² - r²` (constructor, `Surface.cpp` 559). -/
noncomputable def circCoefE (x0 y0 radius : ℝ) : ℝ :=
  x0 * x0 + y0 * y0 - radius * radius

/-- `Circle::evaluate`.  Modelled from the spec: `Surface.h` is not in `src/`;
spec §3 gives the circle implicit form `x² + y² + C·x + D·y + E` with the
constructor's coefficients (`A = B = 1`). -/
noncomputable def circleEvaluate (h k radius : ℝ) (p : ℝ × ℝ) : ℝ :=
  p.1 ^ 2 + p.2 ^ 2 + circCoefC h * p.1 + circCoefD k * p.2 + circCoefE h k radius

/-- `Plane::intersection` (`Surface.cpp` 191-242) for the plane
`A·x + B·y + C = 0`, ray start `(x0, y0)`, angle `θ`. -/
noncomputable def planeIntersectionPts (A B C x0 y0 θ : ℝ) : List (ℝ × ℝ) :=
  if |θ - π / 2| < 1e-10 then
    if B = 0 then []
    else
      let y := (-A * x0 - C) / B
      if forwardRetained θ y0 y then [(x0, y)] else []
  else
    let m := Real.sin θ / Real.cos θ
    if |-A / B - m| < 1e-11 ∧ B ≠ 0 then []
    else
      let x := -(B * (y0 - m * x0) + C) / (A + B * m)
      let y := y0 + m * (x - x0)
      if forwardRetained θ y0 y then [(x, y)] else []

/-- Vertical branch of `Circle::intersection`: `b = _D` (line 608). -/
noncomputable def circleVb (k : ℝ) : ℝ := circCoefD k

/-- Vertical branch: `c = _A*x0*x0 + _C*x0 + _E` (line 609), with `_A = 1`. -/
noncomputable def circleVc (h k radius x0 : ℝ) : ℝ :=
  1 * x0 * x0 + circCoefC h * x0 + circCoefE h k radius

/-- Vertical branch: `discr = b*b - 4*a*c` with `a = _B*_B = 1` (lines 607, 611). -/
noncomputable def circleDiscrV (h k radius x0 : ℝ) : ℝ :=
  circleVb k * circleVb k - 4 * (1 * 1) * circleVc h k radius x0

/-- Non-vertical branch: `m = sin(angle) / cos(angle)` (line 658). -/
noncomputable def circleSlope (θ : ℝ) : ℝ := Real.sin θ / Real.cos θ

/-- Non-vertical branch: `q = y0 - m*x0` (line 659). -/
noncomputable def circleNVq (x0 y0 θ : ℝ) : ℝ := y0 - circleSlope θ * x0

/-- Non-vertical branch: `a = _A + _B*_B*m*m` (line 660), with `_A = _B = 1`. -/
noncomputable def circleNVa (θ : ℝ) : ℝ :=
  1 + 1 * 1 * circleSlope θ * circleSlope θ

/-- Non-vertical branch: `b = 2*_B*m*q + _C + _D*m` (line 661), with `_B = 1`. -/
noncomputable def circleNVb (h k x0 y0 θ : ℝ) : ℝ :=
  2 * 1 * circleSlope θ * circleNVq x0 y0 θ + circCoefC h + circCoefD k * circleSlope θ

/-- Non-vertical branch: `c = _B*q*q + _D*q + _E` (line 662), with `_B = 1`. -/
noncomputable def circleNVc (h k radius x0 y0 θ : ℝ) : ℝ :=
  1 * circleNVq x0 y0 θ * circleNVq x0 y0 θ + circCoefD k * circleNVq x0 y0 θ +
    circCoefE h k radius

/-- Non-vertical branch: `discr = b*b - 4*a*c` (line 664). -/
noncomputable def circleDiscrNV (h k radius x0 y0 θ : ℝ) : ℝ :=
  circleNVb h k x0 y0 θ * circleNVb h k x0 y0 θ -
    4 * circleNVa θ * circleNVc h k radius x0 y0 θ

/-- `Circle::intersection` (`Surface.cpp` 592-707) for the circle centered
`(h, k)` with radius `radius`, ray start `(x0, y0)`, angle `θ`; `buf0x` is
the x-coordinate the caller's `points[0]` held on entry (read by the
non-vertical tangent branch before being overwritten). -/
noncomputable def circleIntersectionPts (h k radius x0 y0 θ buf0x : ℝ) : List (ℝ × ℝ) :=
  if |θ - π / 2| < 1e-10 then
    let b := circleVb k
    let discr := circleDiscrV h k radius x0
    if discr < 0 then []
    else if discr = 0 then
      let y := -b / (2 * (1 * 1))
      if forwardRetained θ y0 y then [(x0, y)] else []
    else
      let y1 := (-b + Real.sqrt discr) / (2 * (1 * 1))
      let y2 := (-b - Real.sqrt discr) / (2 * (1 * 1))
      (if forwardRetained θ y0 y1 then [(x0, y1)] else []) ++
        (if forwardRetained θ y0 y2 then [(x0, y2)] else [])
  else
    let m := circleSlope θ
    let a := circleNVa θ
    let b := circleNVb h k x0 y0 θ
    let discr := circleDiscrNV h k radius x0 y0 θ
    if discr < 0 then []
    else if discr = 0 then
      let x := -b / (2 * a)
      let y := y0 + m * (buf0x - x0)
      if forwardRetained θ y0 y then [(x, y)] else []
    else
      let x1 := (-b + Real.sqrt discr) / (2 * a)
      let yc1 := y0 + m * (x1 - x0)
      let x2 := (-b - Real.sqrt discr) / (2 * a)
      let yc2 := y0 + m * (x2 - x0)
      (if forwardRetained θ y0 yc1 then [(x1, yc1)] else []) ++
        (if forwardRetained θ y0 yc2 then [(x2, yc2)] else [])

/-! ## Lemmas about the cell surface map -/

theorem mapLookup_insert_self (k hs : ℤ) (s : Surf) (l : List (ℤ × ℤ × Surf)) :
    mapLookup k (mapInsert k hs s l) = some (hs, s) := by
  induction l with
  | nil => simp [mapInsert, mapLookup]
  | cons e t ih =>
    by_cases h1 : k < e.1
    · simp [mapInsert, mapLookup, h1]
    · by_cases h2 : k = e.1
      · simp [mapInsert, mapLookup, h1, h2]
      · have h3 : e.1 ≠ k := fun h => h2 h.symm
        simp [mapInsert, mapLookup, h1, h2, h3, ih]

theorem mapLookup_insert_ne (k q hs : ℤ) (s : Surf) (l : List (ℤ × ℤ × Surf))
    (hqk : q ≠ k) : mapLookup q (mapInsert k hs s l) = mapLookup q l := by
  have hkq : ¬(k = q) := fun h => hqk h.symm
  induction l with
  | nil => simp [mapInsert, mapLookup, hkq]
  | cons e t ih =>
    simp only [mapInsert]
    by_cases h1 : k < e.1
    · rw [if_pos h1]
      simp [mapLookup, hkq]
    · rw [if_neg h1]
      by_cases h2 : k = e.1
      · rw [if_pos h2]
        have h3 : ¬(e.1 = q) := by rw [← h2]; exact hkq
        simp [mapLookup, hkq, h3]
      · rw [if_neg h2]
        simp only [mapLookup]
        by_cases h4 : e.1 = q
        · rw [if_pos h4, if_pos h4]
        · rw [if_neg h4, if_neg h4]
          exact ih

theorem mapLookup_eq_none_of_lt (k : ℤ) (l : List (ℤ × ℤ × Surf))
    (h : ∀ e ∈ l, k < e.1) : mapLookup k l = none := by
  induction l with
  | nil => rfl
  | cons e t ih =>
    have h1 : e.1 ≠ k := ne_of_gt (h e (List.mem_cons_self e t))
    simp [mapLookup, h1, ih fun x hx => h x (List.mem_cons_of_mem e hx)]

theorem mapInsert_length (k hs : ℤ) (s : Surf) (l : List (ℤ × ℤ × Surf))
    (hsorted : List.Pairwise (fun a b => a.1 < b.1) l) :
    (mapInsert k hs s l).length =
      if (mapLookup k l).isSome then l.length else l.length + 1 := by
  induction l with
  | nil => simp [mapInsert, mapLookup]
  | cons e t ih =>
    rcases List.pairwise_cons.mp hsorted with ⟨he, ht⟩
    simp only [mapInsert]
    by_cases h1 : k < e.1
    · rw [if_pos h1]
      have h2 : ¬(e.1 = k) := ne_of_gt h1
      have h3 : mapLookup k t = none :=
        mapLookup_eq_none_of_lt k t fun x hx => h1.trans (he x hx)
      simp [mapLookup, h2, h3]
    · rw [if_neg h1]
      by_cases h2 : k = e.1
      · rw [if_pos h2]
        have h3 : e.1 = k := h2.symm
        simp [mapLookup, h3]
      · rw [if_neg h2]
        have h4 : ¬(e.1 = k) := fun h => h2 h.symm
        simp only [List.length_cons, mapLookup, if_neg h4]
        rw [ih ht]
        by_cases h5 : (mapLookup k t).isSome
        · rw [if_pos h5, if_pos h5]
        · rw [if_neg h5, if_neg h5]

/-! ## Claims about ids, padding, and the surface map -/

/-- Supporting lemma: the *Cell* constructor does reject every user id
`≥ 10000` regardless of history — it compares against the literal 10000
and leaves the auto counter untouched on the non-zero paths (contrast
with the Surface constructor in `surface_id_drift`). -/
theorem cell_ctor_id_policy (auto id : ℤ) :
    (id = 0 → cellCtorId auto id = (auto + 1, .ok auto)) ∧
    (1 ≤ id → id ≤ 9999 → cellCtorId auto id = (auto, .ok id)) ∧
    (10000 ≤ id → cellCtorId auto id = (auto, .error ())) := by
  refine ⟨fun h => by simp [cellCtorId, h], fun h1 h2 => ?_, fun h => ?_⟩
  · have : ¬id = 0 := by omega
    have : ¬(10000 : ℤ) ≤ id := by omega
    simp_all [cellCtorId]
  · have : ¬id = 0 := by omega
    simp_all [cellCtorId]

/-- Witness for `cell_ctor_id_policy` at `auto = 10000`, `id = 123`. -/
theorem cell_ctor_id_policy_witness :
    (1 : ℤ) ≤ 123 ∧ (123 : ℤ) ≤ 9999 ∧ cellCtorId 10000 123 = (10000, .ok 123) :=
  ⟨by decide, by decide, (cell_ctor_id_policy 10000 123).2.1 (by decide) (by decide)⟩

/-- **C8** (code bug): `setGeometry` computes
`_num_groups = ((_num_groups + 1) / _vector_length) * _vector_length`,
which is *not* the smallest multiple of `V` that is `≥ G`: with the default
`V = 8` and `G = 9` groups it stores 8, *reducing* the group count below
`G` (and for `G = 1` it stores 0), contradicting its own comment
("rounding up ... to accomodate the energy groups"). -/
theorem setGeometry_padding_truncates :
    paddedNumGroups 9 8 = 8 ∧ paddedNumGroups 9 8 < 9 ∧ paddedNumGroups 1 8 = 0 ∧
      paddedNumGroups 8 8 = 8 := by decide

/-- **C7** (code bug): `Surface::Surface` validates a nonzero user id with
`id >= surf_id()`, but `surf_id()` *increments the static counter on every
call*.  After a single prior surface construction with a nonzero id, the
counter is 10001 and the user id 10000 is accepted, contradicting the
code's own documentation ("user-defined surface IDs greater than or equal
to 10000 are prohibited") and the claim.  The Cell constructor, by
contrast, compares against the literal 10000. -/
theorem surface_id_drift :
    surfCtorId 10000 1 = (10001, .ok 1) ∧
      surfCtorId 10001 10000 = (10002, .ok 10000) ∧
      cellCtorId 10001 10000 = (10001, .error ()) := by
  refine ⟨?_, ?_, ?_⟩ <;> simp [surfCtorId, cellCtorId]

/-- **C9** (confirmed): with `num_rings = 0` and `num_sectors = 0`,
`subdivideCell()` returns the empty list — `sectorize` and `ringify` both
return without creating clones and `_subcells` stays empty; the original
cell is not returned. -/
theorem subdivideCell_no_rings_no_sectors (c : CellB) (b : ℤ)
    (h1 : c.num_rings = 0) (h2 : c.num_sectors = 0) :
    c.subdivideCell b = .ok ([], []) := by
  simp [CellB.subdivideCell, CellB.sectorize, h1, h2]

/-- Witness for `subdivideCell_no_rings_no_sectors` on a concrete cell. -/
theorem subdivideCell_no_rings_no_sectors_witness :
    (⟨1, 2, 0, 0, []⟩ : CellB).num_rings = 0 ∧
      (⟨1, 2, 0, 0, []⟩ : CellB).num_sectors = 0 ∧
      (⟨1, 2, 0, 0, []⟩ : CellB).subdivideCell 10000 = .ok ([], []) :=
  ⟨rfl, rfl, subdivideCell_no_rings_no_sectors _ 10000 rfl rfl⟩

/-- **C10** (confirmed): `addSurface` with halfspace `±1` stores the binding
under the surface's id; an existing binding for the same id is silently
replaced (no error), bindings under every other id are untouched, and
`getNumSurfaces` counts distinct ids: it grows only when the id was not
yet bound. -/
theorem addSurface_keyed_by_id (c : CellB) (hs : ℤ) (s : Surf)
    (hhs : hs = -1 ∨ hs = 1)
    (hsorted : List.Pairwise (fun a b => a.1 < b.1) c.surfaces) :
    ∃ c2, c.addSurface hs s = .ok c2 ∧
      mapLookup s.getId c2.surfaces = some (hs, s) ∧
      (∀ q, q ≠ s.getId → mapLookup q c2.surfaces = mapLookup q c.surfaces) ∧
      c2.getNumSurfaces =
        if (mapLookup s.getId c.surfaces).isSome then c.getNumSurfaces
        else c.getNumSurfaces + 1 := by
  have hok : c.addSurface hs s = .ok (addSurfValid c hs s) := by
    rcases hhs with h | h <;> simp [CellB.addSurface, h]
  refine ⟨addSurfValid c hs s, hok, ?_, ?_, ?_⟩
  · exact mapLookup_insert_self _ _ _ _
  · exact fun q hq => mapLookup_insert_ne _ _ _ _ _ hq
  · exact mapInsert_length _ _ _ _ hsorted

/-- Witness for `addSurface_keyed_by_id`: re-adding surface id 7 to a cell
that already binds ids 3 and 7 replaces the binding and keeps the count 2. -/
theorem addSurface_keyed_by_id_witness :
    ∃ c2,
      (⟨0, 0, 0, 0, [(3, 1, Surf.plane 1 0 0 3), (7, 1, Surf.circle 0 0 1 7)]⟩ :
            CellB).addSurface
          (-1) (Surf.circle 0 0 2 7) = .ok c2 ∧
        mapLookup (Surf.circle 0 0 2 7).getId c2.surfaces = some (-1, Surf.circle 0 0 2 7) ∧
        (∀ q, q ≠ (Surf.circle 0 0 2 7).getId →
          mapLookup q c2.surfaces =
            mapLookup q
              (⟨0, 0, 0, 0, [(3, 1, Surf.plane 1 0 0 3), (7, 1, Surf.circle 0 0 1 7)]⟩ :
                  CellB).surfaces) ∧
        c2.getNumSurfaces =
          if (mapLookup (Surf.circle 0 0 2 7).getId
                (⟨0, 0, 0, 0, [(3, 1, Surf.plane 1 0 0 3), (7, 1, Surf.circle 0 0 1 7)]⟩ :
                    CellB).surfaces).isSome then
            (⟨0, 0, 0, 0, [(3, 1, Surf.plane 1 0 0 3), (7, 1, Surf.circle 0 0 1 7)]⟩ :
                CellB).getNumSurfaces
          else
            (⟨0, 0, 0, 0, [(3, 1, Surf.plane 1 0 0 3), (7, 1, Surf.circle 0 0 1 7)]⟩ :
                CellB).getNumSurfaces + 1 :=
  addSurface_keyed_by_id _ (-1) (Surf.circle 0 0 2 7) (Or.inl rfl)
    (by simp [List.pairwise_cons])

/-! ## C4: equal-area rings -/

/-- Under the conditions `ringify` itself enforces (`0 ≤ R_in < R_out`), the
per-ring area constant divided by π. -/
theorem ringEqualArea_div_pi (Rout Rin : ℝ) (n : ℕ) (h0 : 0 ≤ Rin) (h1 : Rin < Rout)
    (_hn : 1 ≤ n) : ringEqualArea Rout Rin n / π = (Rout ^ 2 - Rin ^ 2) / n := by
  have habs : |Rout * Rout - Rin * Rin| = Rout ^ 2 - Rin ^ 2 := by
    rw [abs_of_pos (by nlinarith)]
    ring
  rw [ringEqualArea, habs, mul_div_assoc, mul_comm, mul_div_assoc, div_self Real.pi_ne_zero,
    mul_one]

/-- The square of the `k`-th generated ring radius: each step removes one
ring area `A/π = (R_out² - R_in²)/n`. -/
theorem ringRadius_sq (Rout Rin : ℝ) (n : ℕ) (h0 : 0 ≤ Rin) (h1 : Rin < Rout)
    (hn : 1 ≤ n) (k : ℕ) (hk : k ≤ n) :
    ringRadius Rout Rin n k ^ 2 = Rout ^ 2 - k * ((Rout ^ 2 - Rin ^ 2) / n) := by
  induction k with
  | zero => simp [ringRadius]
  | succ j ih =>
    have hj : j ≤ n := Nat.le_of_succ_le hk
    have hih := ih hj
    have hnR : (0 : ℝ) < n := by exact_mod_cast hn
    have hjn : ((j : ℝ) + 1) ≤ n := by exact_mod_cast hk
    have hApos : (0 : ℝ) ≤ (Rout ^ 2 - Rin ^ 2) / n := by
      apply div_nonneg (by nlinarith) hnR.le
    have hinner : 0 ≤ ringRadius Rout Rin n j * ringRadius Rout Rin n j -
        ringEqualArea Rout Rin n / π := by
      rw [← sq, hih, ringEqualArea_div_pi Rout Rin n h0 h1 hn]
      have h2 : ((j : ℝ) + 1) * ((Rout ^ 2 - Rin ^ 2) / n) ≤
          (n : ℝ) * ((Rout ^ 2 - Rin ^ 2) / n) :=
        mul_le_mul_of_nonneg_right hjn hApos
      have h3 : (n : ℝ) * ((Rout ^ 2 - Rin ^ 2) / n) = Rout ^ 2 - Rin ^ 2 := by
        field_simp
      nlinarith
    rw [ringRadius, Real.sq_sqrt hinner, ← sq, hih,
      ringEqualArea_div_pi Rout Rin n h0 h1 hn]
    push_cast
    ring

/-- The area of the `k`-th ring cell produced by `ringify`: the annulus
between generated circles `k` and `k+1`, except the innermost ring, whose
inner bound is the cell's own inner circle of radius `R_in` (0 if absent). -/
noncomputable def ringCellArea (Rout Rin : ℝ) (n k : ℕ) : ℝ :=
  if k + 1 < n then
    π * ringRadius Rout Rin n k ^ 2 - π * ringRadius Rout Rin n (k + 1) ^ 2
  else π * ringRadius Rout Rin n k ^ 2 - π * Rin ^ 2

/-- **C4** (confirmed): for a cell bounded by an outer circle of radius
`R_out` (halfspace -1) and an optional inner circle of radius `R_in`
(halfspace +1, 0 if absent), `ringify` generates circles with radii
`r_0 = R_out`, `r_{k+1} = sqrt(r_k² - A/π)` where
`A = π(R_out² - R_in²)/num_rings`; every ring has equal area
`A = π(R_out² - R_in²)/n`, the ring areas sum to `π(R_out² - R_in²)`, and
one circle of radius 1 split into 4 rings yields radii
`1, √(3/4), √(1/2), √(1/4)`. -/
theorem ringify_equal_area_rings (Rout Rin : ℝ) (n : ℕ) (h0 : 0 ≤ Rin)
    (h1 : Rin < Rout) (hn : 1 ≤ n) :
    ringRadius Rout Rin n 0 = Rout ∧
      (∀ k, k < n → ringCellArea Rout Rin n k = π * (Rout ^ 2 - Rin ^ 2) / n) ∧
      (∑ k ∈ Finset.range n, ringCellArea Rout Rin n k = π * (Rout ^ 2 - Rin ^ 2)) ∧
      (ringRadius 1 0 4 0 = 1 ∧ ringRadius 1 0 4 1 = Real.sqrt (3 / 4) ∧
        ringRadius 1 0 4 2 = Real.sqrt (1 / 2) ∧ ringRadius 1 0 4 3 = Real.sqrt (1 / 4)) := by
  have hnR : (0 : ℝ) < n := by exact_mod_cast hn
  have harea : ∀ k, k < n → ringCellArea Rout Rin n k = π * (Rout ^ 2 - Rin ^ 2) / n := by
    intro k hk
    by_cases h2 : k + 1 < n
    · rw [ringCellArea, if_pos h2, ringRadius_sq Rout Rin n h0 h1 hn k hk.le,
        ringRadius_sq Rout Rin n h0 h1 hn (k + 1) h2.le]
      push_cast
      field_simp
      ring
    · have h3 : k + 1 = n := by omega
      have h4 : (k : ℝ) = (n : ℝ) - 1 := by
        have := congrArg (fun m : ℕ => (m : ℝ)) h3
        push_cast at this
        linarith
      rw [ringCellArea, if_neg h2, ringRadius_sq Rout Rin n h0 h1 hn k hk.le, h4]
      field_simp
      ring
  refine ⟨rfl, harea, ?_, ?_⟩
  · rw [Finset.sum_congr rfl fun k hk => harea k (Finset.mem_range.mp hk),
      Finset.sum_const, Finset.card_range, nsmul_eq_mul]
    field_simp
  · have hq : ringEqualArea 1 0 4 / π = 1 / 4 := by
      have := ringEqualArea_div_pi 1 0 4 (le_refl 0) one_pos (by omega)
      rw [this]
      norm_num
    have hr0 : ringRadius 1 0 4 0 = 1 := rfl
    have hr1 : ringRadius 1 0 4 1 = Real.sqrt (3 / 4) := by
      rw [ringRadius, hr0, hq]
      norm_num
    have hr2 : ringRadius 1 0 4 2 = Real.sqrt (1 / 2) := by
      rw [ringRadius, hr1, hq, Real.mul_self_sqrt (by norm_num)]
      norm_num
    have hr3 : ringRadius 1 0 4 3 = Real.sqrt (1 / 4) := by
      rw [ringRadius, hr2, hq, Real.mul_self_sqrt (by norm_num)]
      norm_num
    exact ⟨hr0, hr1, hr2, hr3⟩

/-- Witness for `ringify_equal_area_rings` at `R_out = 1`, `R_in = 0`,
`num_rings = 4`. -/
theorem ringify_equal_area_rings_witness :
    (0 : ℝ) ≤ 0 ∧ (0 : ℝ) < 1 ∧ 1 ≤ 4 ∧
      (ringRadius 1 0 4 0 = 1 ∧
        (∀ k, k < 4 → ringCellArea 1 0 4 k = π * ((1 : ℝ) ^ 2 - (0 : ℝ) ^ 2) / 4) ∧
        (∑ k ∈ Finset.range 4, ringCellArea 1 0 4 k = π * ((1 : ℝ) ^ 2 - (0 : ℝ) ^ 2)) ∧
        (ringRadius 1 0 4 0 = 1 ∧ ringRadius 1 0 4 1 = Real.sqrt (3 / 4) ∧
          ringRadius 1 0 4 2 = Real.sqrt (1 / 2) ∧ ringRadius 1 0 4 3 = Real.sqrt (1 / 4))) :=
  ⟨le_refl 0, one_pos, by omega,
    ringify_equal_area_rings 1 0 4 (le_refl 0) one_pos (by omega)⟩

/-! ## C5: sectorize -/

/-- The sector planes for `num_sectors = 4` have coefficients
`(A, B) = (1,0), (0,1), (-1,0), (0,-1)` (angles `0, π/2, π, 3π/2`). -/
theorem sectorPlane_four (b2 : ℤ) :
    sectorPlane 4 b2 0 = Surf.plane 1 0 0 b2 ∧
      sectorPlane 4 b2 1 = Surf.plane 0 1 0 (b2 + 1) ∧
      sectorPlane 4 b2 2 = Surf.plane (-1) 0 0 (b2 + 2) ∧
      sectorPlane 4 b2 3 = Surf.plane 0 (-1) 0 (b2 + 3) := by
  have h0 : ((0 : ℕ) : ℝ) * (2 * π / ((4 : ℕ) : ℝ)) = 0 := by push_cast; ring
  have h1 : ((1 : ℕ) : ℝ) * (2 * π / ((4 : ℕ) : ℝ)) = π / 2 := by push_cast; ring
  have h2 : ((2 : ℕ) : ℝ) * (2 * π / ((4 : ℕ) : ℝ)) = π := by push_cast; ring
  have h3 : ((3 : ℕ) : ℝ) * (2 * π / ((4 : ℕ) : ℝ)) = π + π / 2 := by push_cast; ring
  refine ⟨?_, ?_, ?_, ?_⟩
  · rw [sectorPlane, h0, Real.cos_zero, Real.sin_zero]
    norm_num
  · rw [sectorPlane, h1, Real.cos_pi_div_two, Real.sin_pi_div_two]
    norm_num
  · rw [sectorPlane, h2, Real.cos_pi, Real.sin_pi]
    norm_num
  · rw [sectorPlane, h3, Real.cos_add, Real.sin_add, Real.cos_pi, Real.sin_pi,
      Real.cos_pi_div_two, Real.sin_pi_div_two]
    norm_num

/-- **C5** (confirmed): for a material cell with `num_sectors = n ≥ 2`,
`sectorize` creates `n` sector clones; sector `i` has its ring/sector
counts reset to 0 and carries `(+1, plane_i)` — where `plane_i` is the
plane through the origin at angle `i·2π/n` with coefficients
`A = cos`, `B = sin`, `C = 0` — and, unless `n = 2`, also
`(-1, plane_{(i+1) mod n})`; for `n = 4` the planes are
`(1,0), (0,1), (-1,0), (0,-1)`; and `subdivideCell` (sectorize then
ringify) returns the sectors when `num_rings = 0` and otherwise the
rings-by-sectors cartesian product, of size `num_rings · num_sectors`. -/
theorem sectorize_sector_cells (c : CellB) (b : ℤ) (hn : 2 ≤ c.num_sectors) :
    (c.sectorize b).length = c.num_sectors ∧
      (∀ i, i < c.num_sectors →
        ∃ s, (c.sectorize b)[i]? = some s ∧ s.num_rings = 0 ∧ s.num_sectors = 0 ∧
          mapLookup (b + i) s.surfaces = some (1, sectorPlane c.num_sectors b i) ∧
          (c.num_sectors ≠ 2 →
            mapLookup (b + ((i + 1) % c.num_sectors : ℕ)) s.surfaces =
              some (-1, sectorPlane c.num_sectors b ((i + 1) % c.num_sectors)))) ∧
      (∀ b2 : ℤ,
        sectorPlane 4 b2 0 = Surf.plane 1 0 0 b2 ∧
          sectorPlane 4 b2 1 = Surf.plane 0 1 0 (b2 + 1) ∧
          sectorPlane 4 b2 2 = Surf.plane (-1) 0 0 (b2 + 2) ∧
          sectorPlane 4 b2 3 = Surf.plane 0 (-1) 0 (b2 + 3)) ∧
      (c.num_rings = 0 → c.subdivideCell b = .ok ([], c.sectorize b)) ∧
      (∀ w rings, c.subdivideCell b = .ok (w, rings) → 1 ≤ c.num_rings →
        rings.length = c.num_rings * c.num_sectors) := by
  have hn0 : c.num_sectors ≠ 0 := by omega
  refine ⟨?_, ?_, sectorPlane_four, ?_, ?_⟩
  · simp [CellB.sectorize, hn0]
  · intro i hi
    have hval : (c.sectorize b)[i]? = some
        (let sector := { c.clone with num_sectors := 0, num_rings := 0 }
         let sector1 := addSurfValid sector 1 (sectorPlane c.num_sectors b i)
         if c.num_sectors ≠ 2 then
           addSurfValid sector1 (-1)
             (sectorPlane c.num_sectors b (if i + 1 < c.num_sectors then i + 1 else 0))
         else sector1) := by
      simp [CellB.sectorize, if_neg hn0, List.getElem?_map, List.getElem?_range, hi]
    refine ⟨_, hval, ?_⟩
    · set j := if i + 1 < c.num_sectors then i + 1 else 0 with hj
      have hjmod : j = (i + 1) % c.num_sectors := by
        by_cases h : i + 1 < c.num_sectors
        · simp [hj, h, Nat.mod_eq_of_lt h]
        · have : i + 1 = c.num_sectors := by omega
          simp [hj, h, this, Nat.mod_self]
      have hij : i ≠ j := by
        by_cases h : i + 1 < c.num_sectors
        · simp only [hj, if_pos h]
          omega
        · have hi1 : i + 1 = c.num_sectors := by omega
          simp only [hj, if_neg h]
          omega
      have hbij : b + (i : ℤ) ≠ b + (j : ℤ) := by
        intro hc
        exact hij (by exact_mod_cast add_left_cancel hc)
      by_cases h2 : c.num_sectors = 2
      · simp only [if_neg (by simp [h2] : ¬c.num_sectors ≠ 2)]
        exact ⟨rfl, rfl, by
          simpa [addSurfValid, sectorPlane, Surf.getId] using
            mapLookup_insert_self (b + (i : ℤ)) 1 (sectorPlane c.num_sectors b i) _,
          fun hc => absurd h2 hc⟩
      · simp only [if_pos h2]
        refine ⟨rfl, rfl, ?_, fun _ => ?_⟩
        · rw [show (addSurfValid _ (-1)
              (sectorPlane c.num_sectors b j)).surfaces =
              mapInsert (b + (j : ℤ)) (-1) (sectorPlane c.num_sectors b j)
                (addSurfValid _ 1 (sectorPlane c.num_sectors b i)).surfaces from rfl,
            mapLookup_insert_ne _ _ _ _ _ hbij]
          simpa [addSurfValid, sectorPlane, Surf.getId] using
            mapLookup_insert_self (b + (i : ℤ)) 1 (sectorPlane c.num_sectors b i) _
        · rw [← hjmod]
          simpa [addSurfValid, sectorPlane, Surf.getId] using
            mapLookup_insert_self (b + (j : ℤ)) (-1) (sectorPlane c.num_sectors b j) _
  · intro h
    simp [CellB.subdivideCell, h]
  · intro w rings hok hr
    have hr0 : c.num_rings ≠ 0 := by omega
    have hsecs : (c.sectorize b).length = c.num_sectors := by simp [CellB.sectorize, hn0]
    have hne : (c.sectorize b).isEmpty = false := by
      cases hemp : c.sectorize b with
      | nil =>
        rw [hemp] at hsecs
        simp at hsecs
        omega
      | cons a t => simp
    simp only [CellB.subdivideCell, if_neg hr0] at hok
    simp only [CellB.ringify, if_neg hr0] at hok
    split_ifs at hok
    all_goals
      simp only [Except.ok.injEq, Prod.mk.injEq] at hok
      obtain ⟨hw, hrings⟩ := hok
      rw [← hrings]
      simp only [ringCellList, List.length_flatten, List.map_map]
      simp only [Function.comp_def, List.length_map, hne, Bool.false_eq_true,
        if_false, hsecs, List.map_const', List.sum_replicate, List.length_range,
        smul_eq_mul]

/-- Witness for `sectorize_sector_cells` on a concrete cell with 4 sectors. -/
theorem sectorize_sector_cells_witness :
    2 ≤ (⟨0, 5, 0, 4, [(1, -1, Surf.circle 0 0 1 1)]⟩ : CellB).num_sectors ∧
      (((⟨0, 5, 0, 4, [(1, -1, Surf.circle 0 0 1 1)]⟩ : CellB).sectorize 10000).length =
          (⟨0, 5, 0, 4, [(1, -1, Surf.circle 0 0 1 1)]⟩ : CellB).num_sectors ∧
        (∀ i, i < (⟨0, 5, 0, 4, [(1, -1, Surf.circle 0 0 1 1)]⟩ : CellB).num_sectors →
          ∃ s, ((⟨0, 5, 0, 4, [(1, -1, Surf.circle 0 0 1 1)]⟩ : CellB).sectorize 10000)[i]? =
              some s ∧ s.num_rings = 0 ∧ s.num_sectors = 0 ∧
            mapLookup (10000 + i) s.surfaces =
              some (1, sectorPlane
                (⟨0, 5, 0, 4, [(1, -1, Surf.circle 0 0 1 1)]⟩ : CellB).num_sectors 10000 i) ∧
            ((⟨0, 5, 0, 4, [(1, -1, Surf.circle 0 0 1 1)]⟩ : CellB).num_sectors ≠ 2 →
              mapLookup
                  (10000 +
                    ((i + 1) % (⟨0, 5, 0, 4, [(1, -1, Surf.circle 0 0 1 1)]⟩ :
                        CellB).num_sectors : ℕ))
                  s.surfaces =
                some (-1, sectorPlane
                  (⟨0, 5, 0, 4, [(1, -1, Surf.circle 0 0 1 1)]⟩ : CellB).num_sectors 10000
                  ((i + 1) %
                    (⟨0, 5, 0, 4, [(1, -1, Surf.circle 0 0 1 1)]⟩ : CellB).num_sectors)))) ∧
        (∀ b2 : ℤ,
          sectorPlane 4 b2 0 = Surf.plane 1 0 0 b2 ∧
            sectorPlane 4 b2 1 = Surf.plane 0 1 0 (b2 + 1) ∧
            sectorPlane 4 b2 2 = Surf.plane (-1) 0 0 (b2 + 2) ∧
            sectorPlane 4 b2 3 = Surf.plane 0 (-1) 0 (b2 + 3)) ∧
        ((⟨0, 5, 0, 4, [(1, -1, Surf.circle 0 0 1 1)]⟩ : CellB).num_rings = 0 →
          (⟨0, 5, 0, 4, [(1, -1, Surf.circle 0 0 1 1)]⟩ : CellB).subdivideCell 10000 =
            .ok ([], (⟨0, 5, 0, 4, [(1, -1, Surf.circle 0 0 1 1)]⟩ : CellB).sectorize 10000)) ∧
        (∀ w rings,
          (⟨0, 5, 0, 4, [(1, -1, Surf.circle 0 0 1 1)]⟩ : CellB).subdivideCell 10000 =
              .ok (w, rings) →
            1 ≤ (⟨0, 5, 0, 4, [(1, -1, Surf.circle 0 0 1 1)]⟩ : CellB).num_rings →
            rings.length =
              (⟨0, 5, 0, 4, [(1, -1, Surf.circle 0 0 1 1)]⟩ : CellB).num_rings *
                (⟨0, 5, 0, 4, [(1, -1, Surf.circle 0 0 1 1)]⟩ : CellB).num_sectors)) :=
  ⟨by norm_num, sectorize_sector_cells _ 10000 (by norm_num)⟩

/-! ## C6: degenerate ringify inputs -/

/-- **C6** (refuted as stated): a cell with *three* circle bounds
(`-1` of radii 2 and 3, `+1` of radius 1, common center) and 2 rings makes
`ringify` print only the non-fatal "more than 2 CIRCLE Surfaces" message
and then *subdivide anyway* (2 ring cells are created — the cell is not
left undivided); and a cell whose `-1` circle radius 1 lies inside its
`+1` circle radius 2 (`R_out ≤ R_in`) makes `ringify` raise the *fatal*
`log_printf(ERROR, ...)`, not a non-fatal warning. -/
theorem ringify_degenerate_cex :
    ((⟨0, 0, 2, 0,
          [(1, -1, Surf.circle 0 0 2 1), (2, -1, Surf.circle 0 0 3 2),
            (3, 1, Surf.circle 0 0 1 3)]⟩ : CellB).ringify [] 10000).map
        (fun p => (p.1, p.2.length)) = .ok ([RingWarn.moreThan2Circles], 2) ∧
      (⟨0, 0, 2, 0, [(1, -1, Surf.circle 0 0 1 1), (2, 1, Surf.circle 0 0 2 2)]⟩ :
            CellB).ringify [] 10000 = .error .disjointCircles := by
  constructor
  · have hscan : scanCircles
        [(1, -1, Surf.circle 0 0 2 1), (2, -1, Surf.circle 0 0 3 2),
          (3, 1, Surf.circle 0 0 1 3)] =
        (3, some (Surf.circle 0 0 3 2), some (Surf.circle 0 0 1 3)) := by
      simp [scanCircles]
    simp only [CellB.ringify, hscan]
    rw [if_neg (show ¬(some (Surf.circle (0 : ℝ) 0 3 2) = none ∧
        ¬some (Surf.circle (0 : ℝ) 0 1 3) = none) by simp)]
    norm_num [circRadius, circX0, circY0, Except.map, ringCellList, List.length_flatten,
      List.map_map, Function.comp_def]
  · have hscan : scanCircles
        [(1, -1, Surf.circle 0 0 1 1), (2, 1, Surf.circle 0 0 2 2)] =
        (2, some (Surf.circle 0 0 1 1), some (Surf.circle 0 0 2 2)) := by
      simp [scanCircles]
    simp only [CellB.ringify, hscan]
    rw [if_neg (show ¬(some (Surf.circle (0 : ℝ) 0 1 1) = none ∧
        ¬some (Surf.circle (0 : ℝ) 0 2 2) = none) by simp)]
    norm_num [circRadius, circX0, circY0]

/-- **C6** (amended): when `ringify` runs on a cell with `num_rings ≥ 1`,
(a) if the circle scan passes the earlier checks but finds
`R_out ≤ R_in`, `ringify` raises the fatal `disjointCircles` error (not a
non-fatal warning), and (b) if the scan finds more than 2 circles (and the
remaining checks pass), `ringify` emits only the non-fatal warning but
does **not** leave the cell undivided: it proceeds with the most recently
scanned circles and produces a non-empty list of ring cells. -/
theorem ringify_degenerate_amended (c : CellB) (secs : List CellB) (b : ℤ)
    (hr : 1 ≤ c.num_rings) :
    ((scanCircles c.surfaces).1 ≠ 0 →
      ¬(circX0 (scanCircles c.surfaces).2.1 ≠ circX0 (scanCircles c.surfaces).2.2 ∧
          (scanCircles c.surfaces).1 = 2) →
      ¬(circY0 (scanCircles c.surfaces).2.1 ≠ circY0 (scanCircles c.surfaces).2.2 ∧
          (scanCircles c.surfaces).1 = 2) →
      ¬((scanCircles c.surfaces).2.1 = none ∧ (scanCircles c.surfaces).2.2 ≠ none) →
      circRadius (scanCircles c.surfaces).2.1 ≤ circRadius (scanCircles c.surfaces).2.2 →
      c.ringify secs b = .error .disjointCircles) ∧
      (2 < (scanCircles c.surfaces).1 →
        ¬((scanCircles c.surfaces).2.1 = none ∧ (scanCircles c.surfaces).2.2 ≠ none) →
        circRadius (scanCircles c.surfaces).2.2 < circRadius (scanCircles c.surfaces).2.1 →
        c.ringify secs b = .ok ([RingWarn.moreThan2Circles],
            ringCellList c secs b (circX0 (scanCircles c.surfaces).2.1)
              (circY0 (scanCircles c.surfaces).2.1) (circRadius (scanCircles c.surfaces).2.1)
              (circRadius (scanCircles c.surfaces).2.2)) ∧
          ringCellList c secs b (circX0 (scanCircles c.surfaces).2.1)
              (circY0 (scanCircles c.surfaces).2.1) (circRadius (scanCircles c.surfaces).2.1)
              (circRadius (scanCircles c.surfaces).2.2) ≠ []) := by
  have hr0 : c.num_rings ≠ 0 := by omega
  constructor
  · intro h0 hx hy hin hrad
    simp only [CellB.ringify, if_neg hr0, if_neg hx, if_neg hy, if_neg hin, if_pos hrad]
    simp [h0]
  · intro h2 hin hrad
    have h0 : (scanCircles c.surfaces).1 ≠ 0 := by omega
    have hn2 : (scanCircles c.surfaces).1 ≠ 2 := by omega
    have hx : ¬(circX0 (scanCircles c.surfaces).2.1 ≠ circX0 (scanCircles c.surfaces).2.2 ∧
        (scanCircles c.surfaces).1 = 2) := fun h => hn2 h.2
    have hy : ¬(circY0 (scanCircles c.surfaces).2.1 ≠ circY0 (scanCircles c.surfaces).2.2 ∧
        (scanCircles c.surfaces).1 = 2) := fun h => hn2 h.2
    have hrad2 : ¬circRadius (scanCircles c.surfaces).2.1 ≤
        circRadius (scanCircles c.surfaces).2.2 := not_le.mpr hrad
    refine ⟨?_, ?_⟩
    · simp only [CellB.ringify, if_neg hr0, if_neg hx, if_neg hy, if_neg hin, if_neg hrad2]
      simp [h0, h2]
    · have htlen : (if secs.isEmpty then [c] else secs).length ≠ 0 := by
        cases hsec : secs with
        | nil => simp
        | cons a t => simp
      intro hnil
      have hlen := congrArg List.length hnil
      rw [ringCellList, List.length_flatten, List.map_map] at hlen
      simp only [Function.comp_def, List.length_map, List.map_const', List.sum_replicate,
        List.length_range, smul_eq_mul, List.length_nil] at hlen
      rcases Nat.mul_eq_zero.mp hlen with h | h
      · exact hr0 h
      · exact htlen h

/-- Witness for `ringify_degenerate_amended` on the two concrete cells of
`ringify_degenerate_cex`. -/
theorem ringify_degenerate_amended_witness :
    (1 ≤ (⟨0, 0, 2, 0, [(1, -1, Surf.circle 0 0 1 1), (2, 1, Surf.circle 0 0 2 2)]⟩ :
          CellB).num_rings) ∧
      (⟨0, 0, 2, 0, [(1, -1, Surf.circle 0 0 1 1), (2, 1, Surf.circle 0 0 2 2)]⟩ :
            CellB).ringify [] 10000 = .error .disjointCircles ∧
      (∃ rings,
        (⟨0, 0, 2, 0,
              [(1, -1, Surf.circle 0 0 2 1), (2, -1, Surf.circle 0 0 3 2),
                (3, 1, Surf.circle 0 0 1 3)]⟩ : CellB).ringify [] 10000 =
            .ok ([RingWarn.moreThan2Circles], rings) ∧ rings ≠ []) := by
  have hscanA : scanCircles
      [((1 : ℤ), (-1 : ℤ), Surf.circle 0 0 1 1), (2, 1, Surf.circle 0 0 2 2)] =
      (2, some (Surf.circle 0 0 1 1), some (Surf.circle 0 0 2 2)) := by
    simp [scanCircles]
  have hscanB : scanCircles
      [((1 : ℤ), (-1 : ℤ), Surf.circle 0 0 2 1), (2, -1, Surf.circle 0 0 3 2),
        (3, 1, Surf.circle 0 0 1 3)] =
      (3, some (Surf.circle 0 0 3 2), some (Surf.circle 0 0 1 3)) := by
    simp [scanCircles]
  refine ⟨by norm_num, ?_, ?_⟩
  · exact (ringify_degenerate_amended
        (⟨0, 0, 2, 0, [(1, -1, Surf.circle 0 0 1 1), (2, 1, Surf.circle 0 0 2 2)]⟩ : CellB)
        [] 10000 (by norm_num)).1
      (by rw [hscanA]; norm_num) (by rw [hscanA]; norm_num [circX0])
      (by rw [hscanA]; norm_num [circY0]) (by rw [hscanA]; simp)
      (by rw [hscanA]; norm_num [circRadius])
  · have h := (ringify_degenerate_amended
        (⟨0, 0, 2, 0,
          [(1, -1, Surf.circle 0 0 2 1), (2, -1, Surf.circle 0 0 3 2),
            (3, 1, Surf.circle 0 0 1 3)]⟩ : CellB)
        [] 10000 (by norm_num)).2
      (by rw [hscanB]; norm_num) (by rw [hscanB]; simp)
      (by rw [hscanB]; norm_num [circRadius])
    exact ⟨_, h.1, h.2⟩

/-! ## C1: computeKeff -/

/-- **C1** (refuted as stated): on a one-FSR, one-group state with unit
rates and a boundary-leakage accumulator whose entries sum to 2,
`computeKeff` returns `1/(1+1) = 1/2`, while the claim's formula — whose
denominator adds *half of half* the accumulator sum — gives
`1/(1+1/2) = 2/3`. -/
theorem computeKeff_leakage_cex :
    computeKeff
        { num_FSRs := 1, num_groups := 1, num_polar := 1, tot_num_tracks := 1,
          FSR_volumes := fun _ => 1, sigma_a := fun _ _ => 1, nu_sigma_f := fun _ _ => 1,
          chi := fun _ _ => 1, sigma_t := fun _ _ => 1, sigma_s := fun _ _ _ => 0,
          scalar_flux := fun _ _ => 1, old_source := fun _ _ => 0, k_eff := 1,
          boundary_leakage := fun _ => 1, residual_buffer := fun _ _ => 0 } ≠
      claimKeff
        { num_FSRs := 1, num_groups := 1, num_polar := 1, tot_num_tracks := 1,
          FSR_volumes := fun _ => 1, sigma_a := fun _ _ => 1, nu_sigma_f := fun _ _ => 1,
          chi := fun _ _ => 1, sigma_t := fun _ _ => 1, sigma_s := fun _ _ _ => 0,
          scalar_flux := fun _ _ => 1, old_source := fun _ _ => 0, k_eff := 1,
          boundary_leakage := fun _ => 1, residual_buffer := fun _ _ => 0 } := by
  simp only [computeKeff, claimKeff, totFission, totAbs, leakageStored, fissionRate,
    absorptionRate, polarTimesGroups]
  norm_num [Finset.sum_range_succ]

/-- **C1** (amended): after a transport sweep, `computeKeff` sets `k_eff`
to `(Σ_{r,g} νΣ_f·φ·V) / ((Σ_{r,g} Σ_a·φ·V) + leakage)` where `leakage`
(the stored `_leakage`) is one half of the sum of every entry of the
boundary-leakage accumulator — equivalently, the denominator adds half
the accumulator total, not a quarter of it.  Stated for non-negative
rates and leakage entries, under which the `cblas_dasum`
absolute-value sums reduce to plain sums. -/
theorem computeKeff_formula (s : SolverState)
    (hA : ∀ r e, 0 ≤ absorptionRate s r e)
    (hF : ∀ r e, 0 ≤ fissionRate s r e)
    (hL : ∀ i, 0 ≤ s.boundary_leakage i) :
    computeKeff s =
      (∑ r ∈ Finset.range s.num_FSRs, ∑ e ∈ Finset.range s.num_groups,
          s.nu_sigma_f r e * s.scalar_flux r e * s.FSR_volumes r) /
        ((∑ r ∈ Finset.range s.num_FSRs, ∑ e ∈ Finset.range s.num_groups,
            s.sigma_a r e * s.scalar_flux r e * s.FSR_volumes r) +
          (∑ i ∈ Finset.range (2 * s.tot_num_tracks * polarTimesGroups s),
              s.boundary_leakage i) / 2) := by
  have hFis : totFission s =
      ∑ r ∈ Finset.range s.num_FSRs, ∑ e ∈ Finset.range s.num_groups,
        s.nu_sigma_f r e * s.scalar_flux r e * s.FSR_volumes r := by
    unfold totFission
    exact Finset.sum_congr rfl fun r _ =>
      Finset.sum_congr rfl fun e _ => abs_of_nonneg (hF r e)
  have hAbs : totAbs s =
      ∑ r ∈ Finset.range s.num_FSRs, ∑ e ∈ Finset.range s.num_groups,
        s.sigma_a r e * s.scalar_flux r e * s.FSR_volumes r := by
    unfold totAbs
    exact Finset.sum_congr rfl fun r _ =>
      Finset.sum_congr rfl fun e _ => abs_of_nonneg (hA r e)
  have hLk : leakageStored s =
      (∑ i ∈ Finset.range (2 * s.tot_num_tracks * polarTimesGroups s),
          s.boundary_leakage i) / 2 := by
    unfold leakageStored
    rw [Finset.sum_congr rfl fun i _ => abs_of_nonneg (hL i),
      show (0.5 : ℝ) = 1 / 2 by norm_num]
    ring
  rw [computeKeff, hFis, hAbs, hLk]

/-- Witness for `computeKeff_formula` on the one-FSR, one-group state of
`computeKeff_leakage_cex`. -/
theorem computeKeff_formula_witness :
    (∀ r e, (0 : ℝ) ≤ absorptionRate
        { num_FSRs := 1, num_groups := 1, num_polar := 1, tot_num_tracks := 1,
          FSR_volumes := fun _ => 1, sigma_a := fun _ _ => 1, nu_sigma_f := fun _ _ => 1,
          chi := fun _ _ => 1, sigma_t := fun _ _ => 1, sigma_s := fun _ _ _ => 0,
          scalar_flux := fun _ _ => 1, old_source := fun _ _ => 0, k_eff := 1,
          boundary_leakage := fun _ => 1, residual_buffer := fun _ _ => 0 } r e) ∧
      computeKeff
          { num_FSRs := 1, num_groups := 1, num_polar := 1, tot_num_tracks := 1,
            FSR_volumes := fun _ => 1, sigma_a := fun _ _ => 1, nu_sigma_f := fun _ _ => 1,
            chi := fun _ _ => 1, sigma_t := fun _ _ => 1, sigma_s := fun _ _ _ => 0,
            scalar_flux := fun _ _ => 1, old_source := fun _ _ => 0, k_eff := 1,
            boundary_leakage := fun _ => 1, residual_buffer := fun _ _ => 0 } =
        (∑ _r ∈ Finset.range 1, ∑ _e ∈ Finset.range 1, (1 : ℝ) * 1 * 1) /
          ((∑ _r ∈ Finset.range 1, ∑ _e ∈ Finset.range 1, (1 : ℝ) * 1 * 1) +
            (∑ _i ∈ Finset.range (2 * 1 * (1 * 1)), (1 : ℝ)) / 2) :=
  ⟨fun _r _e => by norm_num [absorptionRate],
    computeKeff_formula _ (fun _r _e => by norm_num [absorptionRate])
      (fun _r _e => by norm_num [fissionRate]) (fun _i => by norm_num)⟩

/-! ## C3: computeFSRSources -/

/-- **C3** (code bug): `source_residuals` is allocated with
`new FP_PRECISION[_num_groups*_num_FSRs]` and never zero-initialized, and
entries with `|Q| ≤ 1e-10` are skipped rather than set to 0 — yet
`cblas_dasum` then sums *every* entry.  On a one-FSR, one-group state with
zero flux (so `Q = 0`) whose buffer happens to hold 1, the code returns
`sqrt(1/1) = 1`, while the claim's formula (entries with `|Q| ≤ 1e-10`
contribute zero) gives 0. -/
theorem computeFSRSources_uninit_residual :
    sourceResidual
        { num_FSRs := 1, num_groups := 1, num_polar := 1, tot_num_tracks := 1,
          FSR_volumes := fun _ => 0, sigma_a := fun _ _ => 0, nu_sigma_f := fun _ _ => 0,
          chi := fun _ _ => 0, sigma_t := fun _ _ => 1, sigma_s := fun _ _ _ => 0,
          scalar_flux := fun _ _ => 0, old_source := fun _ _ => 0, k_eff := 1,
          boundary_leakage := fun _ => 0, residual_buffer := fun _ _ => 1 } = 1 ∧
      claimResidual
          { num_FSRs := 1, num_groups := 1, num_polar := 1, tot_num_tracks := 1,
            FSR_volumes := fun _ => 0, sigma_a := fun _ _ => 0, nu_sigma_f := fun _ _ => 0,
            chi := fun _ _ => 0, sigma_t := fun _ _ => 1, sigma_s := fun _ _ _ => 0,
            scalar_flux := fun _ _ => 0, old_source := fun _ _ => 0, k_eff := 1,
            boundary_leakage := fun _ => 0, residual_buffer := fun _ _ => 1 } = 0 := by
  have hsrc : sourceRG
      { num_FSRs := 1, num_groups := 1, num_polar := 1, tot_num_tracks := 1,
        FSR_volumes := fun _ => 0, sigma_a := fun _ _ => 0, nu_sigma_f := fun _ _ => 0,
        chi := fun _ _ => 0, sigma_t := fun _ _ => 1, sigma_s := fun _ _ _ => 0,
        scalar_flux := fun _ _ => 0, old_source := fun _ _ => 0, k_eff := 1,
        boundary_leakage := fun _ => 0, residual_buffer := fun _ _ => 1 } 0 0 = 0 := by
    simp [sourceRG, fissionSourceR, scatterSourceRG, ONE_OVER_FOUR_PI,
      Finset.sum_range_succ]
  constructor
  · rw [sourceResidual]
    norm_num [Finset.sum_range_succ, residualEntry, hsrc, Real.sqrt_one]
  · rw [claimResidual]
    norm_num [Finset.sum_range_succ, hsrc, Real.sqrt_zero]

/-! ## C2: intersections lie on the surface, on the forward half-ray -/

/-- A quadratic vanishes at the root `(-b + s)/(2a)` when `s² = b² - 4ac`. -/
theorem quadRootPos (a b c s : ℝ) (ha : a ≠ 0) (hs : s ^ 2 = b * b - 4 * a * c) :
    a * ((-b + s) / (2 * a) * ((-b + s) / (2 * a))) + b * ((-b + s) / (2 * a)) + c = 0 := by
  have hexp : a * ((-b + s) / (2 * a) * ((-b + s) / (2 * a))) + b * ((-b + s) / (2 * a)) + c =
      (s ^ 2 - (b * b - 4 * a * c)) / (4 * a) := by
    field_simp
    ring
  rw [hexp, hs, sub_self, zero_div]

/-- A quadratic vanishes at the root `(-b - s)/(2a)` when `s² = b² - 4ac`. -/
theorem quadRootNeg (a b c s : ℝ) (ha : a ≠ 0) (hs : s ^ 2 = b * b - 4 * a * c) :
    a * ((-b - s) / (2 * a) * ((-b - s) / (2 * a))) + b * ((-b - s) / (2 * a)) + c = 0 := by
  have hexp : a * ((-b - s) / (2 * a) * ((-b - s) / (2 * a))) + b * ((-b - s) / (2 * a)) + c =
      (s ^ 2 - (b * b - 4 * a * c)) / (4 * a) := by
    field_simp
    ring
  rw [hexp, hs, sub_self, zero_div]

/-- Substituting `x = x0` into the circle's implicit form yields the
vertical-branch quadratic in `y` (`Surface.cpp` 603-609). -/
theorem circleEval_vertical (h k radius x0 y : ℝ) :
    circleEvaluate h k radius (x0, y) =
      1 * 1 * (y * y) + circleVb k * y + circleVc h k radius x0 := by
  unfold circleEvaluate circleVb circleVc circCoefC circCoefD circCoefE
  ring

/-- Substituting the point-slope line into the circle's implicit form
yields the non-vertical-branch quadratic in `x` (`Surface.cpp` 652-662). -/
theorem circleEval_nonvertical (h k radius x0 y0 θ x : ℝ) :
    circleEvaluate h k radius (x, y0 + circleSlope θ * (x - x0)) =
      circleNVa θ * (x * x) + circleNVb h k x0 y0 θ * x + circleNVc h k radius x0 y0 θ := by
  unfold circleEvaluate circleNVa circleNVb circleNVc circleNVq circCoefC circCoefD circCoefE
    circleSlope
  ring

theorem circleNVa_pos (θ : ℝ) : 0 < circleNVa θ := by
  unfold circleNVa
  nlinarith [mul_self_nonneg (circleSlope θ)]

/-- A real equal to zero is within the on-surface threshold. -/
theorem evalZero_lt_thresh (x : ℝ) (hx : x = 0) : |x| < ON_SURFACE_THRESH := by
  rw [hx, abs_zero, ON_SURFACE_THRESH]
  norm_num

/-- The quadratic vanishes at `-b/(2a)` when the discriminant is zero. -/
theorem quadRootMid (a b c : ℝ) (ha : a ≠ 0) (hd : b * b - 4 * a * c = 0) :
    a * (-b / (2 * a) * (-b / (2 * a))) + b * (-b / (2 * a)) + c = 0 := by
  have hexp : a * (-b / (2 * a) * (-b / (2 * a))) + b * (-b / (2 * a)) + c =
      (0 - (b * b - 4 * a * c)) / (4 * a) := by
    field_simp
    ring
  rw [hexp, hd]
  norm_num

/-- The vertical-branch intersection of `Plane::intersection` lies on the
plane. -/
theorem planeEvalVert (A B C x0 : ℝ) (hB : B ≠ 0) :
    planeEvaluate A B C (x0, (-A * x0 - C) / B) = 0 := by
  unfold planeEvaluate
  field_simp
  ring

/-- For a non-degenerate plane, if the parallel check did not fire then the
denominator `A + B·m` of the general branch is nonzero. -/
theorem planeDen_ne (A B m : ℝ) (hAB : ¬(A = 0 ∧ B = 0))
    (hpar : ¬(|-A / B - m| < 1e-11 ∧ B ≠ 0)) : A + B * m ≠ 0 := by
  rcases eq_or_ne B 0 with hB0 | hB0
  · rw [hB0, zero_mul, add_zero]
    exact fun hA0 => hAB ⟨hA0, hB0⟩
  · intro hsum
    apply hpar
    refine ⟨?_, hB0⟩
    have hA : A = -(B * m) := by linarith
    rw [hA, neg_neg, mul_comm, mul_div_assoc, div_self hB0, mul_one, sub_self, abs_zero]
    norm_num

/-- The general-branch intersection of `Plane::intersection` lies on the
plane. -/
theorem planeEvalNV (A B C x0 y0 m : ℝ) (hden : A + B * m ≠ 0) :
    planeEvaluate A B C (-(B * (y0 - m * x0) + C) / (A + B * m),
      y0 + m * (-(B * (y0 - m * x0) + C) / (A + B * m) - x0)) = 0 := by
  unfold planeEvaluate
  field_simp
  ring

/-- **C2** (amended): every point reported by `Plane::intersection` for a
non-degenerate plane (`(A, B) ≠ (0, 0)` — i.e. excluding a `ZPlane` fed
through the shared plane routine) satisfies `|evaluate| < ON_SURFACE_THRESH`
and passes the forward y-monotonicity filter; likewise every point reported
by `Circle::intersection` from the vertical branch or from a non-vertical
branch whose discriminant is nonzero.  (The non-vertical *tangent* branch,
`discr = 0`, computes its y-coordinate from the output buffer's prior
content and is excluded — see `tangent_branch_off_surface`.) -/
theorem intersection_on_surface_forward :
    (∀ A B C x0 y0 θ : ℝ, ∀ p : ℝ × ℝ, ¬(A = 0 ∧ B = 0) →
      p ∈ planeIntersectionPts A B C x0 y0 θ →
      |planeEvaluate A B C p| < ON_SURFACE_THRESH ∧ forwardRetained θ y0 p.2) ∧
      (∀ h k radius x0 y0 θ buf : ℝ, ∀ p : ℝ × ℝ,
        (|θ - π / 2| < 1e-10 ∨ circleDiscrNV h k radius x0 y0 θ ≠ 0) →
        p ∈ circleIntersectionPts h k radius x0 y0 θ buf →
        |circleEvaluate h k radius p| < ON_SURFACE_THRESH ∧ forwardRetained θ y0 p.2) := by
  constructor
  · intro A B C x0 y0 θ p hAB hp
    simp only [planeIntersectionPts] at hp
    split_ifs at hp with hv hB hf1 hpar hf2
    all_goals try (simp only [List.not_mem_nil] at hp)
    all_goals rw [List.mem_singleton] at hp
    all_goals subst hp
    all_goals refine ⟨evalZero_lt_thresh _ ?_, by assumption⟩
    · exact planeEvalVert A B C x0 (by assumption)
    · exact planeEvalNV A B C x0 y0 (Real.sin θ / Real.cos θ)
        (planeDen_ne A B (Real.sin θ / Real.cos θ) hAB (by assumption))
  · intro h k radius x0 y0 θ buf p hvd hp
    by_cases hv : |θ - π / 2| < 1e-10
    · simp only [circleIntersectionPts] at hp
      rw [if_pos hv] at hp
      split_ifs at hp with hd1 hd2 hf1 hf2 hf3
      all_goals try (simp only [List.append_nil, List.nil_append, List.not_mem_nil] at hp)
      all_goals simp only [List.mem_append, List.mem_singleton, List.not_mem_nil, or_false,
        false_or] at hp
      all_goals
        (rcases hp with rfl | rfl) <;> refine ⟨evalZero_lt_thresh _ ?_, by assumption⟩
      all_goals rw [circleEval_vertical]
      all_goals
        first
          | exact quadRootMid (1 * 1) _ _ (by norm_num) (by assumption)
          | exact quadRootPos (1 * 1) _ _ _ (by norm_num)
              (Real.sq_sqrt (not_lt.mp (by assumption)))
          | exact quadRootNeg (1 * 1) _ _ _ (by norm_num)
              (Real.sq_sqrt (not_lt.mp (by assumption)))
    · have hdne : circleDiscrNV h k radius x0 y0 θ ≠ 0 := hvd.resolve_left hv
      simp only [circleIntersectionPts] at hp
      rw [if_neg hv] at hp
      split_ifs at hp with hd1 hf1 hf2
      all_goals try (simp only [List.append_nil, List.nil_append, List.not_mem_nil] at hp)
      all_goals simp only [List.mem_append, List.mem_singleton, List.not_mem_nil, or_false,
        false_or] at hp
      all_goals
        (rcases hp with rfl | rfl) <;> refine ⟨evalZero_lt_thresh _ ?_, by assumption⟩
      all_goals rw [circleEval_nonvertical]
      all_goals
        first
          | exact quadRootPos (circleNVa θ) _ _ _ (ne_of_gt (circleNVa_pos θ))
              (Real.sq_sqrt (not_lt.mp (by assumption)))
          | exact quadRootNeg (circleNVa θ) _ _ _ (ne_of_gt (circleNVa_pos θ))
              (Real.sq_sqrt (not_lt.mp (by assumption)))

/-- **C2** (refuted as stated): the non-vertical tangent branch of
`Circle::intersection` (`discr == 0`, `Surface.cpp` 671-679) computes
`ycurr = y0 + m * (points[0].getX() - x0)` *before* writing `points[0]`,
reading the caller's buffer.  For the circle of radius 5 at the origin and
the ray from `(7, 1)` at angle `π - arctan(3/4)` (slope `-3/4`, tangent at
`(3, 4)`), with the output buffer initially holding x = 0, the routine
reports the single point `(3, 25/4)` — which passes the forward filter but
does **not** lie on the circle: `|evaluate| = 369/16 ≥ 1e-12`. -/
theorem tangent_branch_off_surface :
    circleIntersectionPts 0 0 5 7 1 (π - Real.arctan (3 / 4)) 0 = [(3, 25 / 4)] ∧
      ¬|circleEvaluate 0 0 5 (3, 25 / 4)| < ON_SURFACE_THRESH := by
  set θ := π - Real.arctan (3 / 4) with hθ
  have hsq : Real.sqrt (1 + (3 / 4 : ℝ) ^ 2) = 5 / 4 := by
    rw [show (1 + (3 / 4 : ℝ) ^ 2) = (5 / 4) ^ 2 by norm_num]
    exact Real.sqrt_sq (by norm_num)
  have hsin : Real.sin θ = 3 / 5 := by
    rw [hθ, Real.sin_pi_sub, Real.sin_arctan, hsq]
    norm_num
  have hcos : Real.cos θ = -(4 / 5) := by
    rw [hθ, Real.cos_pi_sub, Real.cos_arctan, hsq]
    norm_num
  have hm : circleSlope θ = -(3 / 4) := by
    rw [circleSlope, hsin, hcos]
    norm_num
  have harc1 : Real.arctan (3 / 4) < π / 4 := by
    have h := Real.arctan_strictMono (show (3 / 4 : ℝ) < 1 by norm_num)
    rwa [Real.arctan_one] at h
  have harc0 : 0 < Real.arctan (3 / 4) := by
    have h := Real.arctan_strictMono (show (0 : ℝ) < 3 / 4 by norm_num)
    rwa [Real.arctan_zero] at h
  have hpi : (3.14 : ℝ) < π := by
    have h := Real.pi_gt_d6
    linarith
  have hv : ¬|θ - π / 2| < 1e-10 := by
    have h1 : θ - π / 2 = π / 2 - Real.arctan (3 / 4) := by
      rw [hθ]
      ring
    have h2 : (1e-10 : ℝ) < θ - π / 2 := by
      rw [h1]
      linarith
    intro hcon
    have h3 := le_abs_self (θ - π / 2)
    linarith
  have hθpi : θ < π := by
    rw [hθ]
    linarith
  have hb : circleNVb 0 0 7 1 θ = -(75 / 8) := by
    simp only [circleNVb, circleNVq, circCoefC, circCoefD, hm]
    norm_num
  have ha : circleNVa θ = 25 / 16 := by
    simp only [circleNVa, hm]
    norm_num
  have hd : circleDiscrNV 0 0 5 7 1 θ = 0 := by
    simp only [circleDiscrNV, circleNVb, circleNVc, circleNVq, circleNVa, circCoefC,
      circCoefD, circCoefE, hm]
    norm_num
  constructor
  · simp only [circleIntersectionPts]
    rw [if_neg hv, if_neg (show ¬circleDiscrNV 0 0 5 7 1 θ < 0 by rw [hd]; norm_num),
      if_pos hd]
    have hy : (1 : ℝ) + circleSlope θ * (0 - 7) = 25 / 4 := by
      rw [hm]
      norm_num
    have hfwd : forwardRetained θ 1 (1 + circleSlope θ * (0 - 7)) := by
      rw [forwardRetained, hy]
      exact Or.inl ⟨hθpi, by norm_num⟩
    rw [if_pos hfwd, hb, ha, hy]
    norm_num
  · rw [circleEvaluate, circCoefC, circCoefD, circCoefE, ON_SURFACE_THRESH]
    norm_num
    rw [abs_of_pos (show (0 : ℝ) < 369 / 16 by norm_num)]
    norm_num

/-- Witness for `intersection_on_surface_forward`: the `YPlane` at `y = 3`
(`Plane(0, 1, -3)`) and the circle of radius 5 at the origin, each cut by
the vertical ray from the origin at `θ = π/2`. -/
theorem intersection_on_surface_forward_witness :
    (¬((0 : ℝ) = 0 ∧ (1 : ℝ) = 0) ∧
      ((0 : ℝ), (3 : ℝ)) ∈ planeIntersectionPts 0 1 (-3) 0 0 (π / 2) ∧
      (|planeEvaluate 0 1 (-3) ((0 : ℝ), (3 : ℝ))| < ON_SURFACE_THRESH ∧
        forwardRetained (π / 2) 0 ((0 : ℝ), (3 : ℝ)).2)) ∧
      ((|π / 2 - π / 2| < (1e-10 : ℝ) ∨ circleDiscrNV 0 0 5 0 0 (π / 2) ≠ 0) ∧
        ((0 : ℝ), (5 : ℝ)) ∈ circleIntersectionPts 0 0 5 0 0 (π / 2) 0 ∧
        (|circleEvaluate 0 0 5 ((0 : ℝ), (5 : ℝ))| < ON_SURFACE_THRESH ∧
          forwardRetained (π / 2) 0 ((0 : ℝ), (5 : ℝ)).2)) := by
  have hv2 : |π / 2 - π / 2| < (1e-10 : ℝ) := by
    rw [sub_self, abs_zero]
    norm_num
  have hpi2 : (π : ℝ) / 2 < π := by linarith [Real.pi_pos]
  have hAB : ¬((0 : ℝ) = 0 ∧ (1 : ℝ) = 0) := by norm_num
  have hmemA : ((0 : ℝ), (3 : ℝ)) ∈ planeIntersectionPts 0 1 (-3) 0 0 (π / 2) := by
    simp only [planeIntersectionPts]
    rw [if_pos hv2, if_neg (show ¬(1 : ℝ) = 0 by norm_num),
      if_pos (show forwardRetained (π / 2) 0 ((-0 * 0 - -3) / 1 : ℝ) from
        Or.inl ⟨hpi2, by norm_num⟩)]
    norm_num
  have hvb : circleVb 0 = 0 := by
    rw [circleVb, circCoefD]
    norm_num
  have hdV : circleDiscrV 0 0 5 0 = 100 := by
    rw [circleDiscrV, circleVb, circleVc, circCoefC, circCoefD, circCoefE]
    norm_num
  have h100 : Real.sqrt 100 = 10 := by
    rw [show (100 : ℝ) = 10 ^ 2 by norm_num]
    exact Real.sqrt_sq (by norm_num)
  have hmemB : ((0 : ℝ), (5 : ℝ)) ∈ circleIntersectionPts 0 0 5 0 0 (π / 2) 0 := by
    simp only [circleIntersectionPts]
    rw [if_pos hv2, if_neg (show ¬circleDiscrV 0 0 5 0 < 0 by rw [hdV]; norm_num),
      if_neg (show ¬circleDiscrV 0 0 5 0 = 0 by rw [hdV]; norm_num), hdV, hvb, h100]
    rw [if_pos (show forwardRetained (π / 2) 0 ((-0 + 10) / (2 * (1 * 1)) : ℝ) from
        Or.inl ⟨hpi2, by norm_num⟩),
      if_neg (show ¬forwardRetained (π / 2) 0 ((-0 - 10) / (2 * (1 * 1)) : ℝ) by
        rintro (⟨_, hgt⟩ | ⟨hgt, _⟩)
        · norm_num at hgt
        · linarith)]
    norm_num
  exact ⟨⟨hAB, hmemA,
      intersection_on_surface_forward.1 0 1 (-3) 0 0 (π / 2) ((0 : ℝ), (3 : ℝ)) hAB hmemA⟩,
    ⟨Or.inl hv2, hmemB,
      intersection_on_surface_forward.2 0 0 5 0 0 (π / 2) 0 ((0 : ℝ), (5 : ℝ))
        (Or.inl hv2) hmemB⟩⟩

end OpenMOC
